import Mathlib

/-!
Formal model of the Ringtail threshold signing engine specified alongside the
zap wire schema (src/zap.zap and the full Cap'n Proto schema file).  The wire
data types (parameters, round outputs, signature, peer message union) are
embedded from the schema; the engine behaviour (session state machine, round
engine, combiner, coordinator) is modelled from the design spec, because the
repository ships only the schema and a documentation site, not the engine
implementation.
-/

namespace ZapRingtail

/-- Protocol parameters, embedded from the schema struct `RingtailParams`
(matrix rows `m`, columns `n`, commitment dimension `dbar`, challenge Hamming
weight `kappa`, ring dimension `phi`, key size, modulus `q`, rounding
parameters `xi` and `nu`). -/
structure RingtailParams where
  m : Nat
  n : Nat
  dbar : Nat
  kappa : Nat
  phi : Nat
  keySize : Nat
  q : Nat
  xi : Nat
  nu : Nat
deriving Repr, DecidableEq

/-- Default parameter values from the schema field defaults. -/
def defaultParams : RingtailParams :=
  { m := 8, n := 7, dbar := 48, kappa := 23, phi := 256, keySize := 32,
    q := 0x1000000004A01, xi := 30, nu := 29 }

/-- Ring element: a polynomial in `Z_q[X]/(X^phi + 1)`, embedded from the
schema struct `Poly` (coefficients mod `q`, ring dimension `phi`). -/
abbrev Rq (p : RingtailParams) := Fin p.phi → ZMod p.q

/-- Vector of ring elements, embedded from the schema struct `PolyVector`. -/
abbrev PolyVec (p : RingtailParams) (len : Nat) := Fin len → Rq p

/-- Matrix of ring elements, embedded from the schema struct `PolyMatrix`. -/
abbrev PolyMat (p : RingtailParams) (rows cols : Nat) := Fin rows → Fin cols → Rq p

/-- Commitment matrix shape `M x (Dbar+1)` from the schema struct
`RingtailRound1Output` (field `dMatrix`). -/
abbrev Commitment (p : RingtailParams) := PolyMat p p.m (p.dbar + 1)

/-- Modelled from the spec: negacyclic polynomial multiplication in
`Z_q[X]/(X^phi + 1)` (the lattice arithmetic primitive the spec treats as an
external black box). -/
def pmul (p : RingtailParams) (f g : Rq p) : Rq p := fun k =>
  ∑ i : Fin p.phi, ∑ j : Fin p.phi,
    if (i.val + j.val) % p.phi = k.val then
      (if i.val + j.val < p.phi then f i * g j else -(f i * g j))
    else 0

/-- Coefficientwise addition of polynomial vectors. -/
def vecAdd (p : RingtailParams) {len : Nat} (v w : PolyVec p len) : PolyVec p len :=
  fun i k => v i k + w i k

/-- Coefficientwise subtraction of polynomial vectors. -/
def vecSub (p : RingtailParams) {len : Nat} (v w : PolyVec p len) : PolyVec p len :=
  fun i k => v i k - w i k

/-- The zero polynomial vector. -/
def zeroVec (p : RingtailParams) {len : Nat} : PolyVec p len := fun _ _ => 0

/-- Sum of a list of polynomial vectors. -/
def vecSum (p : RingtailParams) {len : Nat} (vs : List (PolyVec p len)) : PolyVec p len :=
  vs.foldr (vecAdd p) (zeroVec p)

/-- Matrix-vector product over the polynomial ring. -/
def matVec (p : RingtailParams) {r c : Nat} (A : PolyMat p r c) (v : PolyVec p c) :
    PolyVec p r :=
  fun i => ∑ j, pmul p (A i j) (v j)

/-- Scalar (ring element) times vector. -/
def smulVec (p : RingtailParams) {len : Nat} (c : Rq p) (v : PolyVec p len) :
    PolyVec p len :=
  fun i => pmul p c (v i)

/-- Modelled from the spec: the bounded rounding/compression primitive, here
truncation of the low `r` bits of a coefficient. -/
def roundCoeff (p : RingtailParams) (r : Nat) (x : ZMod p.q) : ZMod p.q :=
  ((x.val / 2 ^ r * 2 ^ r : Nat) : ZMod p.q)

/-- Rounding applied to every coefficient of a polynomial vector. -/
def roundVec (p : RingtailParams) {len : Nat} (r : Nat) (v : PolyVec p len) :
    PolyVec p len :=
  fun i k => roundCoeff p r (v i k)

/-- Number of nonzero coefficients (Hamming weight) of a ring element. -/
def weight (p : RingtailParams) (c : Rq p) : Nat :=
  (Finset.univ.filter fun k => c k ≠ 0).card

/-- Modelled from the spec: one mixing step of the black-box hash. -/
def hashStep (h x : Nat) : Nat := h * 1000003 + x + 1

/-- Modelled from the spec: the black-box hash over a byte/limb sequence
(spec treats `Hash` as an external primitive with a determinism contract). -/
def hashNat (xs : List Nat) : Nat := xs.foldl hashStep 17

/-- Coefficient list of a ring element, used for hashing commitments. -/
def encodePoly (p : RingtailParams) (f : Rq p) : List Nat :=
  (List.finRange p.phi).map fun k => (f k).val

/-- Flattened coefficient list of a polynomial vector. -/
def encodeVec (p : RingtailParams) {len : Nat} (v : PolyVec p len) : List Nat :=
  (List.finRange len).foldr (fun i acc => encodePoly p (v i) ++ acc) []

/-- Flattened coefficient list of a commitment matrix. -/
def encodeCommit (p : RingtailParams) (D : Commitment p) : List Nat :=
  (List.finRange p.m).foldr (fun r acc => encodeVec p (D r) ++ acc) []

/-- Modelled from the spec: draw `k` distinct positions out of `n` from a
hash seed, used to place the nonzero coefficients of the sparse challenge. -/
def choosePositions : Nat → Nat → Nat → List Nat
  | _, 0, _ => []
  | seed, n + 1, k =>
    if k = 0 then []
    else if seed % (n + 1) < k then n :: choosePositions (seed / 2) n (k - 1)
    else choosePositions (seed / 2) n k

/-- Modelled from the spec: map a hash seed to a sparse challenge polynomial
of Hamming weight `kappa` (Fiat-Shamir expansion). -/
def expandChallenge (p : RingtailParams) (seed : Nat) : Rq p :=
  fun k => if k.val ∈ choosePositions seed p.phi p.kappa then 1 else 0

/-- First column of a commitment matrix: the masked commitment vector the
combiner and verifier reconcile. -/
def firstCol (p : RingtailParams) (D : Commitment p) : PolyVec p p.m :=
  fun r => D r 0

/-- Modelled from the spec: challenge derivation from the message, session id
and the aggregated committed data (the quantity the verifier can recompute
from a signature). -/
def deriveChallengeAgg (p : RingtailParams) (message : List Nat) (sessionId : Nat)
    (W : PolyVec p p.m) : Rq p :=
  expandChallenge p (hashNat (message ++ sessionId :: encodeVec p W))

/-- Modelled from the spec: deterministic challenge derivation
`c = Hash(message, sessionId, sorted-by-partyId quorum commitments)` mapped to
a sparse polynomial of Hamming weight `kappa`.  The sorted quorum commitments
enter through their aggregated first columns, which is what the verifier can
reconstruct from the signature; the exact hash layout is left open by the
spec. -/
def deriveChallenge (p : RingtailParams) (message : List Nat) (sessionId : Nat)
    (comms : List (Commitment p)) : Rq p :=
  deriveChallengeAgg p message sessionId (vecSum p (comms.map (firstCol p)))

theorem choosePositions_length :
    ∀ (n seed k : Nat), k ≤ n → (choosePositions seed n k).length = k := by
  intro n
  induction n with
  | zero =>
    intro seed k h
    have hk : k = 0 := Nat.le_zero.mp h
    subst hk
    rfl
  | succ n ih =>
    intro seed k h
    by_cases hk : k = 0
    · subst hk
      simp [choosePositions]
    · by_cases hlt : seed % (n + 1) < k
      · have hk1 : k - 1 ≤ n := by omega
        simp only [choosePositions, if_neg hk, if_pos hlt, List.length_cons,
          ih (seed / 2) (k - 1) hk1]
        omega
      · have hkn : k ≤ n := by
          have := Nat.mod_lt seed (show 0 < n + 1 by omega)
          omega
        simp only [choosePositions, if_neg hk, if_neg hlt]
        exact ih (seed / 2) k hkn

theorem choosePositions_mem_lt :
    ∀ (n seed k x : Nat), x ∈ choosePositions seed n k → x < n := by
  intro n
  induction n with
  | zero =>
    intro seed k x hx
    simp [choosePositions] at hx
  | succ n ih =>
    intro seed k x hx
    by_cases hk : k = 0
    · subst hk
      simp [choosePositions] at hx
    · by_cases hlt : seed % (n + 1) < k
      · simp only [choosePositions, if_neg hk, if_pos hlt, List.mem_cons] at hx
        rcases hx with hx | hx
        · omega
        · have := ih (seed / 2) (k - 1) x hx
          omega
      · simp only [choosePositions, if_neg hk, if_neg hlt] at hx
        have := ih (seed / 2) k x hx
        omega

theorem choosePositions_pairwise_gt :
    ∀ (n seed k : Nat), (choosePositions seed n k).Pairwise (· > ·) := by
  intro n
  induction n with
  | zero =>
    intro seed k
    simp [choosePositions]
  | succ n ih =>
    intro seed k
    by_cases hk : k = 0
    · subst hk
      simp [choosePositions]
    · by_cases hlt : seed % (n + 1) < k
      · simp only [choosePositions, if_neg hk, if_pos hlt]
        refine List.Pairwise.cons ?_ (ih (seed / 2) (k - 1))
        intro x hx
        exact choosePositions_mem_lt n (seed / 2) (k - 1) x hx
      · simp only [choosePositions, if_neg hk, if_neg hlt]
        exact ih (seed / 2) k

theorem choosePositions_nodup (n seed k : Nat) :
    (choosePositions seed n k).Nodup :=
  (choosePositions_pairwise_gt n seed k).imp (fun h => Nat.ne_of_gt h)

theorem weight_expandChallenge (p : RingtailParams) (seed : Nat)
    (hq : 1 < p.q) (hk : p.kappa ≤ p.phi) :
    weight p (expandChallenge p seed) = p.kappa := by
  classical
  haveI : Fact (1 < p.q) := ⟨hq⟩
  have h10 : (1 : ZMod p.q) ≠ 0 := one_ne_zero
  have hnd : (choosePositions seed p.phi p.kappa).Nodup :=
    choosePositions_nodup p.phi seed p.kappa
  have hlen : (choosePositions seed p.phi p.kappa).length = p.kappa :=
    choosePositions_length p.phi seed p.kappa hk
  unfold weight expandChallenge
  have hfilter :
      (Finset.univ.filter fun k : Fin p.phi =>
        (if k.val ∈ choosePositions seed p.phi p.kappa then (1 : ZMod p.q) else 0) ≠ 0)
      = Finset.univ.filter
          (fun k : Fin p.phi => k.val ∈ choosePositions seed p.phi p.kappa) := by
    apply Finset.filter_congr
    intro k _
    by_cases hmem : k.val ∈ choosePositions seed p.phi p.kappa
    · simp [hmem, h10]
    · simp [hmem]
  rw [hfilter]
  have hcard :
      (Finset.univ.filter
        (fun k : Fin p.phi => k.val ∈ choosePositions seed p.phi p.kappa)).card
      = (choosePositions seed p.phi p.kappa).toFinset.card := by
    apply Finset.card_bij (fun a _ => a.val)
    · intro a ha
      simp only [Finset.mem_filter] at ha
      exact List.mem_toFinset.mpr ha.2
    · intro a1 ha1 a2 ha2 hval
      exact Fin.ext hval
    · intro b hb
      have hbL : b ∈ choosePositions seed p.phi p.kappa := List.mem_toFinset.mp hb
      have hblt : b < p.phi := choosePositions_mem_lt p.phi seed p.kappa b hbL
      refine ⟨⟨b, hblt⟩, ?_, rfl⟩
      simp only [Finset.mem_filter]
      exact ⟨Finset.mem_univ _, hbL⟩
  rw [hcard, List.toFinset_card_of_nodup hnd, hlen]

/-- Error taxonomy from the spec's error handling design (section 7). -/
inductive RingtailError
  | invalidParticipantSet
  | unknownParty
  | randomnessReuse
  | challengeNotReady
  | malformedShare
  | insufficientShares
  | signingFailed
  | aborted
  | timedOut
  | sessionNotFound
deriving Repr, DecidableEq

/-- MAC record, embedded from the schema struct `RingtailMac`. -/
structure RingtailMac where
  senderId : Nat
  recipientId : Nat
  value : Nat
deriving Repr, DecidableEq

/-- Round 1 output, embedded from the schema struct `RingtailRound1Output`:
party, session, commitment matrix, MACs for the other participants,
timestamp. -/
structure Round1Output (p : RingtailParams) where
  partyId : Nat
  sessionId : Nat
  dMatrix : Commitment p
  macs : List RingtailMac
  timestamp : Nat
deriving DecidableEq

/-- Round 2 output, embedded from the schema struct `RingtailRound2Output`:
party, session, response share `z_i`, timestamp. -/
structure Round2Output (p : RingtailParams) where
  partyId : Nat
  sessionId : Nat
  zShare : PolyVec p p.n
  timestamp : Nat
deriving DecidableEq

/-- Final signature, embedded from the schema struct `RingtailSignature`:
challenge `c`, aggregated response `z`, correction term `delta`, contributing
signer ids, session id. -/
structure Signature (p : RingtailParams) where
  c : Rq p
  z : PolyVec p p.n
  delta : PolyVec p p.m
  signers : List Nat
  sessionId : Nat
deriving DecidableEq

/-- Modelled from the spec: the response-share bound implied by the rounding
parameters `xi` and `nu`. -/
def shareBound (p : RingtailParams) : Nat := 2 ^ (p.xi + p.nu)

/-- A response share is in bound when every coefficient is below the bound
implied by `xi`/`nu`. -/
def zInBound (p : RingtailParams) (z : PolyVec p p.n) : Prop :=
  ∀ i k, (z i k).val < shareBound p

instance (p : RingtailParams) (z : PolyVec p p.n) : Decidable (zInBound p z) := by
  unfold zInBound
  infer_instance

/-- Boolean form of the response-share bound check. -/
def zInBoundB (p : RingtailParams) (z : PolyVec p p.n) : Bool := decide (zInBound p z)

/-- Modelled from the spec: secret-share material held by the Round Engine;
this wrapper type is deliberately not a field of any wire struct. -/
structure SecretShare (p : RingtailParams) where
  share : PolyVec p p.n

/-- Modelled from the spec: local state of one party's Round Engine - the
secret share, the per-session round-1 randomness still unconsumed, and the
sessions whose randomness was already used. -/
structure PartyState (p : RingtailParams) where
  partyId : Nat
  secret : SecretShare p
  rand : List (Nat × PolyVec p p.n)
  usedSessions : List Nat

/-- Modelled from the spec: the honest round-2 response share, a function of
the secret key share, the challenge `c`, and the round-1 randomness:
`z_i = y_i + c * s_i`. -/
def honestZ (p : RingtailParams) (s : PolyVec p p.n) (c : Rq p) (y : PolyVec p p.n) :
    PolyVec p p.n :=
  vecAdd p y (smulVec p c s)

/-- Modelled from the spec: the commitment matrix with the rounded mask
commitment in its first column (the remaining `Dbar` columns are not
determined by the spec and are left zero). -/
def commitOf (p : RingtailParams) (w : PolyVec p p.m) : Commitment p :=
  fun r j => if j.val = 0 then w r else 0

/-- Modelled from the spec: round-1 signing - refuse duplicate randomness for
a session, commit to the mask `A*y` rounded by `xi`, and MAC the commitment
to every other invited participant under the pairwise key. -/
def partySignRound1 (p : RingtailParams) (A : PolyMat p p.m p.n) (st : PartyState p)
    (sid : Nat) (y : PolyVec p p.n) (others : List Nat) (macKey : Nat → Nat → Nat)
    (ts : Nat) : Except RingtailError (Round1Output p × PartyState p) :=
  if st.usedSessions.contains sid || st.rand.any (fun e => e.1 == sid) then
    .error .randomnessReuse
  else
    let D := commitOf p (roundVec p p.xi (matVec p A y))
    let macs := (others.filter (fun j => j != st.partyId)).map
      (fun j => ⟨st.partyId, j, hashNat (macKey st.partyId j :: encodeCommit p D)⟩)
    .ok (⟨st.partyId, sid, D, macs, ts⟩, { st with rand := (sid, y) :: st.rand })

/-- Modelled from the spec: round-2 signing - refuse to proceed without a
derived challenge, enforce single use of the round-1 randomness, and compute
`z_i` from the secret share, the challenge and that randomness. -/
def partySignRound2 (p : RingtailParams) (st : PartyState p) (sid : Nat)
    (challenge : Option (Rq p)) (ts : Nat) :
    Except RingtailError (Round2Output p × PartyState p) :=
  match challenge with
  | none => .error .challengeNotReady
  | some c =>
    match st.rand.find? (fun e => e.1 == sid) with
    | none => .error .randomnessReuse
    | some e =>
      .ok (⟨st.partyId, sid, honestZ p st.secret.share c e.2, ts⟩,
        { st with rand := st.rand.filter (fun e2 => e2.1 != sid),
                  usedSessions := sid :: st.usedSessions })

/-- Session lifecycle states from the spec's session state machine. -/
inductive SessionStatus
  | idle
  | awaitingRound1
  | awaitingRound2
  | combining
  | completed
  | failed
  | aborted
  | timedOut
deriving Repr, DecidableEq

/-- Terminal states of a session. -/
def SessionStatus.isTerminal : SessionStatus → Bool
  | .completed => true
  | .failed => true
  | .aborted => true
  | .timedOut => true
  | _ => false

/-- Error reported when an operation reaches a session already in the given
terminal state (a completed session is treated as archived). -/
def SessionStatus.terminalError : SessionStatus → RingtailError
  | .timedOut => .timedOut
  | .aborted => .aborted
  | .failed => .signingFailed
  | _ => .sessionNotFound

/-- Modelled from the spec: one signing session - identity, message,
participants, timeout, status, collected round outputs, the challenge
(set once at the round-1 quorum), and the quorum fixed at that transition. -/
structure Session (p : RingtailParams) where
  sessionId : Nat
  message : List Nat
  participants : List Nat
  timeoutMs : Nat
  createdAt : Nat
  status : SessionStatus
  round1 : List (Round1Output p)
  round2 : List (Round2Output p)
  challenge : Option (Rq p)
  quorum : List Nat
  quorumCommits : List (Commitment p)
deriving DecidableEq

/-- Round-1 outputs sorted by party id. -/
def sortByPartyId (p : RingtailParams) (outs : List (Round1Output p)) :
    List (Round1Output p) :=
  List.insertionSort (fun a b => a.partyId ≤ b.partyId) outs

/-- The sorted-by-partyId commitment matrices of a list of round-1 outputs. -/
def sortedCommitments (p : RingtailParams) (outs : List (Round1Output p)) :
    List (Commitment p) :=
  (sortByPartyId p outs).map (fun o => o.dMatrix)

/-- Stored round-1 output of a party, if any. -/
def findByParty (p : RingtailParams) (outs : List (Round1Output p)) (pid : Nat) :
    Option (Round1Output p) :=
  outs.find? (fun o => o.partyId == pid)

/-- Modelled from the spec: session handling of one round-1 submission -
reject terminal sessions, wrong session ids and unknown parties; absorb a
resubmission as an idempotent no-op returning the stored value; otherwise
record the output, and at the `t`-th distinct valid submission derive the
challenge from (message, sessionId, sorted-by-partyId commitments) and fix
the quorum.  Late round-1 submissions after the quorum are recorded but never
change the challenge. -/
def submitRound1 (p : RingtailParams) (t : Nat) (s : Session p)
    (out : Round1Output p) : Session p × Except RingtailError (Round1Output p) :=
  if s.status.isTerminal then (s, .error s.status.terminalError)
  else if out.sessionId ≠ s.sessionId then (s, .error .sessionNotFound)
  else if out.partyId ∉ s.participants then (s, .error .unknownParty)
  else
    match findByParty p s.round1 out.partyId with
    | some stored => (s, .ok stored)
    | none =>
      let r1 := s.round1 ++ [out]
      if s.status = .awaitingRound1 ∧ t ≤ r1.length then
        ({ s with round1 := r1, status := .awaitingRound2,
                  challenge := some (deriveChallenge p s.message s.sessionId
                    (sortedCommitments p r1)),
                  quorum := r1.map (fun o => o.partyId),
                  quorumCommits := sortedCommitments p r1 }, .ok out)
      else ({ s with round1 := r1 }, .ok out)

/-- Round-2 outputs with duplicate party ids removed (first submission wins). -/
def dedupByParty (p : RingtailParams) : List (Round2Output p) → List (Round2Output p)
  | [] => []
  | o :: rest => o :: (dedupByParty p rest).filter (fun a => a.partyId != o.partyId)

/-- Modelled from the spec: the verifier's compressed recomputation of the
committed data from public values only (`A*z - c*b`, compressed by `nu`); the
correction term `delta` reconciles it with the exact committed aggregate the
challenge was derived from. -/
def commitRecovery (p : RingtailParams) (A : PolyMat p p.m p.n) (b : PolyVec p p.m)
    (c : Rq p) (z : PolyVec p p.n) : PolyVec p p.m :=
  roundVec p p.nu (vecSub p (matVec p A z) (smulVec p c b))

/-- The round-2 outputs the combiner treats as supplied: those of quorum
members for this session, deduplicated by party. -/
def suppliedOutputs (p : RingtailParams) (sessionId : Nat) (quorum : List Nat)
    (outs : List (Round2Output p)) : List (Round2Output p) :=
  dedupByParty p (outs.filter
    (fun o => decide (o.partyId ∈ quorum) && (o.sessionId == sessionId)))

/-- The supplied round-2 outputs whose response shares are within the
`xi`/`nu` bound. -/
def goodOutputs (p : RingtailParams) (sessionId : Nat) (quorum : List Nat)
    (outs : List (Round2Output p)) : List (Round2Output p) :=
  (suppliedOutputs p sessionId quorum outs).filter (fun o => zInBoundB p o.zShare)

/-- Modelled from the spec: the combiner.  Keeps the round-2 outputs of the
recorded quorum for this session (deduplicated by party); fails with
`insufficientShares` when fewer than `t` are supplied; excludes any
out-of-bound share, failing with `signingFailed` when fewer than `t` in-bound
outputs remain; otherwise aggregates `z`, computes the correction term
`delta` against the committed aggregate `S`, and emits the signature. -/
def finalize (p : RingtailParams) (t : Nat) (A : PolyMat p p.m p.n)
    (b : PolyVec p p.m) (c : Rq p) (sessionId : Nat) (quorum : List Nat)
    (S : PolyVec p p.m) (outs : List (Round2Output p)) :
    Except RingtailError (Signature p) :=
  if (suppliedOutputs p sessionId quorum outs).length < t then
    .error .insufficientShares
  else if (goodOutputs p sessionId quorum outs).length < t then
    .error .signingFailed
  else
    let good := goodOutputs p sessionId quorum outs
    let z := vecSum p (good.map (fun o => o.zShare))
    .ok ⟨c, z, vecSub p S (commitRecovery p A b c z),
         good.map (fun o => o.partyId), sessionId⟩

/-- Modelled from the spec: signature validation - recompute the challenge
from the message and the committed data reconstructed from the signature,
check the challenge weight is exactly `kappa`, check `z` is within the bound
implied by `xi`/`nu`, and check the public verification equation relating
`publicMatrix`, `publicKey`, `z`, `delta` and `c`. -/
def verify (p : RingtailParams) (message : List Nat) (sig : Signature p)
    (publicKey : PolyVec p p.m) (publicMatrix : PolyMat p p.m p.n) : Bool :=
  decide (weight p sig.c = p.kappa) &&
  decide (zInBound p sig.z) &&
  decide (deriveChallengeAgg p message sig.sessionId
    (vecAdd p (commitRecovery p publicMatrix publicKey sig.c sig.z) sig.delta)
    = sig.c)

/-- Modelled from the spec: session handling of one round-2 submission. -/
def submitRound2 (p : RingtailParams) (t : Nat) (A : PolyMat p p.m p.n)
    (b : PolyVec p p.m) (s : Session p) (out : Round2Output p) :
    Session p × Except RingtailError Unit :=
  if s.status.isTerminal then (s, .error s.status.terminalError)
  else if out.sessionId ≠ s.sessionId then (s, .error .sessionNotFound)
  else if s.status ≠ .awaitingRound2 then (s, .error .challengeNotReady)
  else if out.partyId ∉ s.quorum then (s, .error .unknownParty)
  else if s.round2.any (fun o => o.partyId == out.partyId) then (s, .ok ())
  else
    let r2 := s.round2 ++ [out]
    if t ≤ r2.length then
      match s.challenge with
      | none => (s, .error .challengeNotReady)
      | some c =>
        match finalize p t A b c s.sessionId s.quorum
            (vecSum p (s.quorumCommits.map (firstCol p))) r2 with
        | .ok _ => ({ s with round2 := r2, status := .completed }, .ok ())
        | .error e => ({ s with round2 := r2, status := .failed }, .error e)
    else ({ s with round2 := r2 }, .ok ())

/-- Modelled from the spec: the coordinator's session store. -/
structure CoordinatorState (p : RingtailParams) where
  sessions : List (Session p)
  nextSessionId : Nat

/-- Modelled from the spec: `initSession(message, participants)` - fails with
`invalidParticipantSet` when fewer than `t` distinct participants are given,
leaving the session store unchanged; otherwise creates a session in state
`awaitingRound1` and returns its fresh session id. -/
def initSession (p : RingtailParams) (t : Nat) (st : CoordinatorState p)
    (message : List Nat) (participants : List Nat) (timeoutMs now : Nat) :
    CoordinatorState p × Except RingtailError Nat :=
  if participants.dedup.length < t then (st, .error .invalidParticipantSet)
  else
    ({ sessions := st.sessions ++ [{
         sessionId := st.nextSessionId, message := message,
         participants := participants.dedup, timeoutMs := timeoutMs,
         createdAt := now, status := .awaitingRound1, round1 := [],
         round2 := [], challenge := none, quorum := [], quorumCommits := [] }],
       nextSessionId := st.nextSessionId + 1 }, .ok st.nextSessionId)

/-- Modelled from the spec: move a session to `timedOut` once `timeoutMs` has
elapsed since creation and it is still in a non-terminal state. -/
def checkTimeout (p : RingtailParams) (now : Nat) (s : Session p) : Session p :=
  if s.status.isTerminal = false ∧ s.createdAt + s.timeoutMs ≤ now then
    { s with status := .timedOut }
  else s

/-- Operations that can reach a session after creation. -/
inductive SessionOp (p : RingtailParams)
  | submitR1 (out : Round1Output p)
  | submitR2 (out : Round2Output p)
  | abortOp (partyId : Nat) (reason : List Nat)
  | getSignatureOp
  | tick

/-- Modelled from the spec: dispatch of one operation against one session at
time `now`.  The timeout check runs first; a timed-out session answers every
operation with a terminal timeout result and is never revived. -/
def applyOp (p : RingtailParams) (t : Nat) (A : PolyMat p p.m p.n)
    (b : PolyVec p p.m) (now : Nat) (s : Session p) (op : SessionOp p) :
    Session p × Except RingtailError Unit :=
  let s1 := checkTimeout p now s
  if s1.status = .timedOut then (s1, .error .timedOut)
  else
    match op with
    | .submitR1 out =>
      let res := submitRound1 p t s1 out
      (res.1, res.2.map (fun _ => ()))
    | .submitR2 out => submitRound2 p t A b s1 out
    | .abortOp _ _ =>
      if s1.status.isTerminal then (s1, .error s1.status.terminalError)
      else ({ s1 with status := .aborted }, .ok ())
    | .getSignatureOp => (s1, .ok ())
    | .tick => (s1, .ok ())

/-- Party information, embedded from the schema struct `RingtailPartyInfo`
(party ids are 0-indexed per the schema comment). -/
structure PartyInfo where
  partyId : Nat
  totalParties : Nat
  threshold : Nat
  address : List Nat
  publicKey : List Nat
deriving Repr, DecidableEq

/-- Sign request, embedded from the schema struct `RingtailSignRequest`. -/
structure SignRequest where
  message : List Nat
  sessionId : Nat
  participants : List Nat
  timeoutMs : Nat
deriving Repr, DecidableEq

/-- Progress report, embedded from the schema struct `RingtailSignProgress`. -/
structure SignProgress where
  sessionId : Nat
  currentRound : Nat
  completedParties : List Nat
  pendingParties : List Nat
  estimatedTimeMs : Nat
deriving Repr, DecidableEq

/-- Sign response union, embedded from the schema struct
`RingtailSignResponse`: a signature, an error, or a progress report. -/
inductive SignResponse (p : RingtailParams)
  | signature (sig : Signature p)
  | errorMsg (e : RingtailError)
  | progress (pr : SignProgress)

/-- Party status enum, embedded from the schema enum `RingtailPartyStatus`. -/
inductive PartyStatus
  | idle
  | signingRound1
  | signingRound2
  | combining
  | busy
  | offline
deriving Repr, DecidableEq

/-- Heartbeat, embedded from the schema struct `RingtailHeartbeat` (the load
fraction is modelled as a Nat). -/
structure Heartbeat where
  partyId : Nat
  status : PartyStatus
  currentSession : Nat
  load : Nat
deriving Repr, DecidableEq

/-- Abort message, embedded from the schema struct `RingtailAbort`. -/
structure AbortMessage where
  sessionId : Nat
  reason : List Nat
  partyId : Nat
deriving Repr, DecidableEq

/-- Payload union of the peer-to-peer wire message, embedded from the tagged
union inside the schema struct `RingtailPeerMessage`. -/
inductive PeerPayload (p : RingtailParams)
  | round1 (o : Round1Output p)
  | round2 (o : Round2Output p)
  | signRequest (r : SignRequest)
  | signResponse (r : SignResponse p)
  | heartbeat (hb : Heartbeat)
  | abortMsg (a : AbortMessage)

/-- Peer-to-peer wire message, embedded from the schema struct
`RingtailPeerMessage`: sender id, recipient id (0 = broadcast per the schema
comment), session id, timestamp, and exactly one payload. -/
structure PeerMessage (p : RingtailParams) where
  fromId : Nat
  toId : Nat
  sessionId : Nat
  timestamp : Nat
  payload : PeerPayload p

/-- Secret-share material carried by a round-1 output: its fields are the
commitment matrix, the MACs and a timestamp, so none. -/
def Round1Output.secretShares {p : RingtailParams} (_ : Round1Output p) :
    List (SecretShare p) := []

/-- Secret-share material carried by a round-2 output: its fields are the
response share and a timestamp, so none. -/
def Round2Output.secretShares {p : RingtailParams} (_ : Round2Output p) :
    List (SecretShare p) := []

/-- Secret-share material carried by a signature: `c`, `z`, `delta`, signer
ids and session id, so none. -/
def Signature.secretShares {p : RingtailParams} (_ : Signature p) :
    List (SecretShare p) := []

/-- Secret-share material carried by a sign response. -/
def SignResponse.secretShares {p : RingtailParams} :
    SignResponse p → List (SecretShare p)
  | .signature sig => sig.secretShares
  | .errorMsg _ => []
  | .progress _ => []

/-- Secret-share material carried by a wire payload, collected variant by
variant. -/
def PeerPayload.secretShares {p : RingtailParams} :
    PeerPayload p → List (SecretShare p)
  | .round1 o => o.secretShares
  | .round2 o => o.secretShares
  | .signRequest _ => []
  | .signResponse r => r.secretShares
  | .heartbeat _ => []
  | .abortMsg _ => []

/-- Whether a payload is a round-1 commitment. -/
def PeerPayload.isRound1 {p : RingtailParams} : PeerPayload p → Bool
  | .round1 _ => true
  | _ => false

/-- Whether a payload is a round-2 response share. -/
def PeerPayload.isRound2 {p : RingtailParams} : PeerPayload p → Bool
  | .round2 _ => true
  | _ => false

/-- Whether a payload carries a final signature. -/
def PeerPayload.isFinalSignature {p : RingtailParams} : PeerPayload p → Bool
  | .signResponse (.signature _) => true
  | _ => false

/-- Recipient of a wire message: the schema comment on `RingtailPeerMessage`
says recipient value 0 denotes broadcast, while `RingtailPartyInfo` says
party ids are 0-indexed. -/
inductive Recipient
  | broadcast
  | direct (partyId : Nat)
deriving Repr, DecidableEq

/-- Decoding of the wire recipient field per the schema comment. -/
def decodeRecipient (w : Nat) : Recipient :=
  if w = 0 then .broadcast else .direct w

/-- Encoding of a recipient into the wire field. -/
def encodeRecipient : Recipient → Nat
  | .broadcast => 0
  | .direct pid => pid

/-- Tiny parameter set used to evaluate the model on concrete inputs. -/
def tinyParams : RingtailParams :=
  { m := 1, n := 1, dbar := 0, kappa := 1, phi := 1, keySize := 1,
    q := 2, xi := 0, nu := 1 }

/-- Tiny parameter set whose modulus exceeds the share bound, so that
out-of-bound response shares exist. -/
def bigQParams : RingtailParams :=
  { m := 1, n := 1, dbar := 0, kappa := 1, phi := 1, keySize := 1,
    q := 5, xi := 0, nu := 1 }

/-- A small session used to evaluate the session state machine. -/
def tinySession : Session tinyParams :=
  { sessionId := 5, message := [1], participants := [0, 1], timeoutMs := 10,
    createdAt := 0, status := .awaitingRound1, round1 := [], round2 := [],
    challenge := none, quorum := [], quorumCommits := [] }

/-- A small round-1 output matching `tinySession`. -/
def tinyOut : Round1Output tinyParams :=
  { partyId := 0, sessionId := 5, dMatrix := fun _ _ _ => 0, macs := [],
    timestamp := 0 }

/-- C10: the wire recipient field uses 0 for broadcast while party ids are
0-indexed, so the encoding identifies a direct message to party 0 with a
broadcast: no recipient value ever decodes to a direct message for party 0,
and every peer message whose recipient field could have meant party 0 decodes
as a broadcast. -/
theorem broadcast_encoding_not_injective_at_zero :
    encodeRecipient .broadcast = encodeRecipient (.direct 0)
    ∧ (Recipient.broadcast == Recipient.direct 0) = false
    ∧ (∀ w : Nat, (decodeRecipient w == Recipient.direct 0) = false)
    ∧ (∀ (p : RingtailParams) (msg : PeerMessage p),
        (decodeRecipient msg.toId == Recipient.direct 0) = false) := by
  refine ⟨rfl, rfl, ?_, ?_⟩
  · intro w
    unfold decodeRecipient
    by_cases hw : w = 0
    · simp [hw]
    · simp [hw]
  · intro p msg
    unfold decodeRecipient
    by_cases hw : msg.toId = 0
    · simp [hw]
    · simp [hw]

/-- C3: `verify` returns true exactly when the challenge recomputed from the
message and the committed data reconstructed from the signature (through the
public verification equation in `publicMatrix`, `publicKey`, `z`, `delta`,
`c`) matches `c`, the challenge has exactly `kappa` nonzero coefficients, and
`z` lies within the bound implied by `xi`/`nu`; in particular it returns true
only if all of these hold. -/
theorem verify_checks_iff (p : RingtailParams) (message : List Nat)
    (sig : Signature p) (publicKey : PolyVec p p.m)
    (publicMatrix : PolyMat p p.m p.n) :
    verify p message sig publicKey publicMatrix = true ↔
      (weight p sig.c = p.kappa ∧ zInBound p sig.z ∧
       deriveChallengeAgg p message sig.sessionId
         (vecAdd p (commitRecovery p publicMatrix publicKey sig.c sig.z) sig.delta)
         = sig.c) := by
  unfold verify
  simp [Bool.and_eq_true, decide_eq_true_eq, and_assoc]

/-- A concrete heartbeat wire message. -/
def hbMessage : PeerMessage defaultParams :=
  ⟨1, 0, 5, 0, PeerPayload.heartbeat ⟨1, PartyStatus.idle, 5, 0⟩⟩

/-- C4 counterexample: the peer-to-peer wire union also transmits payloads
that are neither round-1 commitments, round-2 response shares, nor final
signatures - a concrete heartbeat message is a legal wire message of none of
those three kinds. -/
theorem wire_message_beyond_three_kinds :
    hbMessage.payload.isRound1 = false
    ∧ hbMessage.payload.isRound2 = false
    ∧ hbMessage.payload.isFinalSignature = false :=
  ⟨rfl, rfl, rfl⟩

/-- C4 (amended): no variant of the peer-to-peer wire message carries
secret-share material - collecting the secret shares of any wire message,
variant by variant and through the nested sign response, yields none. -/
theorem wire_messages_carry_no_secret_shares (p : RingtailParams)
    (msg : PeerMessage p) : msg.payload.secretShares = [] := by
  cases msg with
  | mk fromId toId sessionId timestamp payload =>
    cases payload with
    | round1 o => rfl
    | round2 o => rfl
    | signRequest r => rfl
    | signResponse r => cases r <;> rfl
    | heartbeat hb => rfl
    | abortMsg a => rfl

/-- C5: `initSession` with fewer than `t` distinct participants fails with
`invalidParticipantSet` leaving the session store unchanged; with at least
`t` it appends exactly one new session in state `awaitingRound1` and returns
that session's id. -/
theorem initSession_threshold_behavior (p : RingtailParams) (t : Nat)
    (st : CoordinatorState p) (message participants : List Nat)
    (timeoutMs now : Nat) :
    (participants.dedup.length < t →
      initSession p t st message participants timeoutMs now
        = (st, .error .invalidParticipantSet))
    ∧ (t ≤ participants.dedup.length →
      ∃ s : Session p,
        (initSession p t st message participants timeoutMs now).1.sessions
            = st.sessions ++ [s]
        ∧ s.status = .awaitingRound1
        ∧ (initSession p t st message participants timeoutMs now).2
            = .ok s.sessionId) := by
  constructor
  · intro hlt
    unfold initSession
    rw [if_pos hlt]
  · intro hge
    have hnlt : ¬ participants.dedup.length < t := by omega
    simp only [initSession, if_neg hnlt]
    exact ⟨_, rfl, rfl, rfl⟩

/-- Witness for C5: with threshold 3, two distinct participants are rejected
with `invalidParticipantSet` and no session is created, while three distinct
participants yield a fresh `awaitingRound1` session. -/
theorem initSession_threshold_witness :
    (initSession tinyParams 3 ⟨[], 0⟩ [1] [10, 20] 1000 0
        = (⟨[], 0⟩, .error .invalidParticipantSet))
    ∧ ∃ s : Session tinyParams,
        (initSession tinyParams 3 ⟨[], 0⟩ [1] [10, 20, 30] 1000 0).1.sessions
            = ([] : List (Session tinyParams)) ++ [s]
        ∧ s.status = .awaitingRound1
        ∧ (initSession tinyParams 3 ⟨[], 0⟩ [1] [10, 20, 30] 1000 0).2
            = .ok s.sessionId := by
  constructor
  · exact (initSession_threshold_behavior tinyParams 3 ⟨[], 0⟩ [1] [10, 20] 1000 0).1
      (by decide)
  · exact (initSession_threshold_behavior tinyParams 3 ⟨[], 0⟩ [1] [10, 20, 30] 1000 0).2
      (by decide)

theorem find_append_self {p : RingtailParams} (l : List (Round1Output p))
    (out : Round1Output p)
    (hnew : l.find? (fun o => o.partyId == out.partyId) = none) :
    (l ++ [out]).find? (fun o => o.partyId == out.partyId) = some out := by
  induction l with
  | nil => simp
  | cons a rest ih =>
    rw [List.cons_append]
    cases hb : (a.partyId == out.partyId) with
    | true =>
      exfalso
      simp only [List.find?, hb] at hnew
      exact Option.noConfusion hnew
    | false =>
      simp only [List.find?, hb] at hnew ⊢
      exact ih hnew

theorem submitRound1_fresh (p : RingtailParams) (t : Nat) (s : Session p)
    (out : Round1Output p) (hterm : s.status.isTerminal = false)
    (hsid : out.sessionId = s.sessionId) (hmem : out.partyId ∈ s.participants)
    (hnew : findByParty p s.round1 out.partyId = none) :
    submitRound1 p t s out =
      (if s.status = .awaitingRound1 ∧ t ≤ (s.round1 ++ [out]).length then
        ({ s with round1 := s.round1 ++ [out], status := .awaitingRound2,
                  challenge := some (deriveChallenge p s.message s.sessionId
                    (sortedCommitments p (s.round1 ++ [out]))),
                  quorum := (s.round1 ++ [out]).map (fun o => o.partyId),
                  quorumCommits := sortedCommitments p (s.round1 ++ [out]) },
         .ok out)
      else ({ s with round1 := s.round1 ++ [out] }, .ok out)) := by
  unfold submitRound1
  rw [hterm, if_neg (by simp), if_neg (not_not_intro hsid),
      if_neg (not_not_intro hmem), hnew]

theorem submitRound1_stored (p : RingtailParams) (t : Nat) (s : Session p)
    (out stored : Round1Output p) (hterm : s.status.isTerminal = false)
    (hsid : out.sessionId = s.sessionId) (hmem : out.partyId ∈ s.participants)
    (hstored : findByParty p s.round1 out.partyId = some stored) :
    submitRound1 p t s out = (s, .ok stored) := by
  unfold submitRound1
  rw [hterm, if_neg (by simp), if_neg (not_not_intro hsid),
      if_neg (not_not_intro hmem), hstored]

/-- C8: after a first accepted round-1 submission, submitting the same output
again is an idempotent no-op: the session state is unchanged and the stored
output is returned rather than an error. -/
theorem round1_resubmission_idempotent (p : RingtailParams) (t : Nat)
    (s : Session p) (out : Round1Output p)
    (hst : s.status = .awaitingRound1)
    (hsid : out.sessionId = s.sessionId)
    (hmem : out.partyId ∈ s.participants)
    (hnew : findByParty p s.round1 out.partyId = none) :
    submitRound1 p t (submitRound1 p t s out).1 out
      = ((submitRound1 p t s out).1, .ok out) := by
  have hterm : s.status.isTerminal = false := by rw [hst]; rfl
  rw [submitRound1_fresh p t s out hterm hsid hmem hnew]
  by_cases hcond : s.status = .awaitingRound1 ∧ t ≤ (s.round1 ++ [out]).length
  · rw [if_pos hcond]
    exact submitRound1_stored p t _ out out rfl hsid hmem
      (find_append_self s.round1 out hnew)
  · rw [if_neg hcond]
    exact submitRound1_stored p t _ out out hterm hsid hmem
      (find_append_self s.round1 out hnew)

/-- Witness for C8 on a concrete session: the duplicate submission leaves the
session unchanged and returns the stored output. -/
theorem round1_resubmission_witness :
    submitRound1 tinyParams 2 (submitRound1 tinyParams 2 tinySession tinyOut).1 tinyOut
      = ((submitRound1 tinyParams 2 tinySession tinyOut).1, .ok tinyOut) :=
  round1_resubmission_idempotent tinyParams 2 tinySession tinyOut rfl rfl
    (by decide) rfl

/-- C1: when the `t`-th valid round-1 output is recorded for a session with
enough participants, the derived challenge equals the pure function
`deriveChallenge` of exactly (message, sessionId, sorted-by-partyId quorum
commitments) - so recomputing from the same inputs yields the same
polynomial - and any challenge so stored has exactly `kappa` nonzero
coefficients. -/
theorem challenge_pure_function_and_weight (p : RingtailParams) (t : Nat)
    (s : Session p) (out : Round1Output p)
    (hq : 1 < p.q) (hk : p.kappa ≤ p.phi)
    (_hpart : t ≤ s.participants.length)
    (hst : s.status = .awaitingRound1)
    (hfire : (submitRound1 p t s out).1.status = .awaitingRound2) :
    (submitRound1 p t s out).1.challenge
        = some (deriveChallenge p s.message s.sessionId
            (sortedCommitments p (submitRound1 p t s out).1.round1))
    ∧ ∀ ch, (submitRound1 p t s out).1.challenge = some ch →
        weight p ch = p.kappa := by
  have hterm : s.status.isTerminal = false := by rw [hst]; rfl
  by_cases hsid : out.sessionId = s.sessionId
  · by_cases hmem : out.partyId ∈ s.participants
    · cases hfound : findByParty p s.round1 out.partyId with
      | some stored =>
        exfalso
        rw [submitRound1_stored p t s out stored hterm hsid hmem hfound] at hfire
        rw [hst] at hfire
        exact absurd hfire (by decide)
      | none =>
        rw [submitRound1_fresh p t s out hterm hsid hmem hfound] at hfire ⊢
        by_cases hcond : s.status = .awaitingRound1 ∧ t ≤ (s.round1 ++ [out]).length
        · rw [if_pos hcond] at hfire ⊢
          refine ⟨rfl, ?_⟩
          intro ch hch
          injection hch with hch2
          rw [← hch2]
          exact weight_expandChallenge p _ hq hk
        · exfalso
          rw [if_neg hcond] at hfire
          rw [hst] at hfire
          exact absurd hfire (by decide)
    · exfalso
      have hres : submitRound1 p t s out = (s, .error .unknownParty) := by
        unfold submitRound1
        rw [hterm, if_neg (by simp), if_neg (not_not_intro hsid), if_pos hmem]
      rw [hres] at hfire
      rw [hst] at hfire
      exact absurd hfire (by decide)
  · exfalso
    have hres : submitRound1 p t s out = (s, .error .sessionNotFound) := by
      unfold submitRound1
      rw [hterm, if_neg (by simp), if_pos hsid]
    rw [hres] at hfire
    rw [hst] at hfire
    exact absurd hfire (by decide)

/-- Witness for C1 on a concrete session: the transition fires at the first
submission when the threshold is 1, storing the derived challenge, which has
exactly `kappa = 1` nonzero coefficients. -/
theorem challenge_pure_function_witness :
    (submitRound1 tinyParams 1 tinySession tinyOut).1.challenge
        = some (deriveChallenge tinyParams tinySession.message tinySession.sessionId
            (sortedCommitments tinyParams (submitRound1 tinyParams 1 tinySession tinyOut).1.round1))
    ∧ weight tinyParams (deriveChallenge tinyParams tinySession.message
        tinySession.sessionId
        (sortedCommitments tinyParams (submitRound1 tinyParams 1 tinySession tinyOut).1.round1))
        = tinyParams.kappa := by
  have h := challenge_pure_function_and_weight tinyParams 1 tinySession tinyOut
    (by decide) (by decide) (by decide) rfl (by decide)
  exact ⟨h.1, h.2 _ h.1⟩

/-- C9: once `timeoutMs` has elapsed since creation, any operation reaching a
session still in a non-terminal state moves it to `timedOut` and answers with
the terminal timeout result; and `timedOut` is terminal - every subsequent
operation leaves a timed-out session entirely unchanged and answers with the
timeout result. -/
theorem timeout_terminal_behavior (p : RingtailParams) (t : Nat)
    (A : PolyMat p p.m p.n) (b : PolyVec p p.m) (now : Nat) (s : Session p)
    (op : SessionOp p) :
    (s.status.isTerminal = false → s.createdAt + s.timeoutMs ≤ now →
      (applyOp p t A b now s op).1.status = .timedOut
      ∧ (applyOp p t A b now s op).2 = .error .timedOut)
    ∧ (s.status = .timedOut →
      applyOp p t A b now s op = (s, .error .timedOut)) := by
  constructor
  · intro hnt hdl
    have hct : checkTimeout p now s = { s with status := .timedOut } := by
      unfold checkTimeout
      rw [if_pos ⟨hnt, hdl⟩]
    unfold applyOp
    rw [hct]
    exact ⟨rfl, rfl⟩
  · intro hto
    have hterm : s.status.isTerminal = true := by rw [hto]; rfl
    have hct : checkTimeout p now s = s := by
      unfold checkTimeout
      rw [if_neg]
      rintro ⟨h1, _⟩
      rw [hterm] at h1
      exact absurd h1 (by decide)
    unfold applyOp
    rw [hct, if_pos hto]

/-- Witness for C9 on a concrete session: a tick at the deadline times the
session out with a timeout answer, and a later query against the timed-out
session leaves it unchanged and also answers timeout. -/
theorem timeout_terminal_witness :
    ((applyOp tinyParams 2 (fun _ _ _ => 0) (fun _ _ => 0) 10 tinySession
        SessionOp.tick).1.status = .timedOut
      ∧ (applyOp tinyParams 2 (fun _ _ _ => 0) (fun _ _ => 0) 10 tinySession
        SessionOp.tick).2 = .error .timedOut)
    ∧ applyOp tinyParams 2 (fun _ _ _ => 0) (fun _ _ => 0) 11
        { tinySession with status := .timedOut } SessionOp.getSignatureOp
      = ({ tinySession with status := .timedOut }, .error .timedOut) := by
  constructor
  · exact (timeout_terminal_behavior tinyParams 2 (fun _ _ _ => 0) (fun _ _ => 0)
      10 tinySession SessionOp.tick).1 (by decide) (by decide)
  · exact (timeout_terminal_behavior tinyParams 2 (fun _ _ _ => 0) (fun _ _ => 0)
      11 { tinySession with status := .timedOut } SessionOp.getSignatureOp).2 rfl

theorem dedupByParty_ids_nodup (p : RingtailParams) :
    ∀ l : List (Round2Output p), ((dedupByParty p l).map (fun o => o.partyId)).Nodup := by
  intro l
  induction l with
  | nil => simp [dedupByParty]
  | cons o rest ih =>
    simp only [dedupByParty, List.map_cons, List.nodup_cons]
    constructor
    · intro hmem
      obtain ⟨a, ha, hpid⟩ := List.mem_map.mp hmem
      have hf := (List.mem_filter.mp ha).2
      rw [bne_iff_ne] at hf
      exact hf hpid
    · exact ih.sublist ((List.filter_sublist (dedupByParty p rest)).map _)

theorem dedupByParty_eq_self (p : RingtailParams) :
    ∀ l : List (Round2Output p), (l.map (fun o => o.partyId)).Nodup →
      dedupByParty p l = l := by
  intro l
  induction l with
  | nil => intro _; rfl
  | cons o rest ih =>
    intro hnd
    simp only [List.map_cons, List.nodup_cons] at hnd
    obtain ⟨hhead, htail⟩ := hnd
    simp only [dedupByParty]
    rw [ih htail]
    congr 1
    apply List.filter_eq_self.mpr
    intro a ha
    rw [bne_iff_ne]
    intro heq
    exact hhead (heq ▸ List.mem_map_of_mem (fun o2 => o2.partyId) ha)

theorem nodup_ids_inj {p : RingtailParams} :
    ∀ (l : List (Round2Output p)), ((l.map (fun o => o.partyId)).Nodup) →
      ∀ o1 o2, o1 ∈ l → o2 ∈ l → o1.partyId = o2.partyId → o1 = o2 := by
  intro l
  induction l with
  | nil =>
    intro _ o1 o2 h1
    exact absurd h1 (List.not_mem_nil o1)
  | cons a rest ih =>
    intro hnd o1 o2 h1 h2 heq
    simp only [List.map_cons, List.nodup_cons] at hnd
    obtain ⟨hhead, htail⟩ := hnd
    rcases List.mem_cons.mp h1 with h1a | h1r
    · rcases List.mem_cons.mp h2 with h2a | h2r
      · rw [h1a, h2a]
      · exfalso
        apply hhead
        rw [← show o1.partyId = a.partyId from h1a ▸ rfl, heq]
        exact List.mem_map_of_mem (fun o => o.partyId) h2r
    · rcases List.mem_cons.mp h2 with h2a | h2r
      · exfalso
        apply hhead
        rw [← show o2.partyId = a.partyId from h2a ▸ rfl, ← heq]
        exact List.mem_map_of_mem (fun o => o.partyId) h1r
      · exact ih htail o1 o2 h1r h2r heq

theorem zInBound_of_q_le (p : RingtailParams) (hq : 0 < p.q)
    (hb : p.q ≤ shareBound p) (z : PolyVec p p.n) : zInBound p z := by
  haveI : NeZero p.q := ⟨by omega⟩
  intro i k
  exact lt_of_lt_of_le (ZMod.val_lt (z i k)) hb

theorem vecAdd_vecSub_cancel (p : RingtailParams) {len : Nat}
    (V S : PolyVec p len) : vecAdd p V (vecSub p S V) = S := by
  funext i k
  show V i k + (S i k - V i k) = S i k
  ring

/-- C6: `finalize` fails with `insufficientShares` when fewer than `t`
deduplicated quorum round-2 outputs are supplied; when at least `t` are
supplied, any party whose `z_i` lies outside the `xi`/`nu` bound is excluded:
finalize still succeeds using exactly the in-bound outputs when at least `t`
of them remain (the excluded party never appears among the signers), and
fails with `signingFailed` otherwise. -/
theorem finalize_error_handling (p : RingtailParams) (t : Nat)
    (A : PolyMat p p.m p.n) (b : PolyVec p p.m) (c : Rq p) (sid : Nat)
    (quorum : List Nat) (S : PolyVec p p.m) (outs : List (Round2Output p)) :
    ((suppliedOutputs p sid quorum outs).length < t →
      finalize p t A b c sid quorum S outs = .error .insufficientShares)
    ∧ (t ≤ (suppliedOutputs p sid quorum outs).length →
      (t ≤ (goodOutputs p sid quorum outs).length →
        ∃ sig, finalize p t A b c sid quorum S outs = .ok sig
          ∧ sig.signers = (goodOutputs p sid quorum outs).map (fun o => o.partyId)
          ∧ ∀ o ∈ suppliedOutputs p sid quorum outs,
              ¬ zInBound p o.zShare → o.partyId ∉ sig.signers)
      ∧ ((goodOutputs p sid quorum outs).length < t →
        finalize p t A b c sid quorum S outs = .error .signingFailed)) := by
  constructor
  · intro hlt
    unfold finalize
    rw [if_pos hlt]
  · intro hge
    have hnlt : ¬ (suppliedOutputs p sid quorum outs).length < t := by omega
    constructor
    · intro hgood
      have hngood : ¬ (goodOutputs p sid quorum outs).length < t := by omega
      refine ⟨⟨c,
        vecSum p ((goodOutputs p sid quorum outs).map (fun o => o.zShare)),
        vecSub p S (commitRecovery p A b c
          (vecSum p ((goodOutputs p sid quorum outs).map (fun o => o.zShare)))),
        (goodOutputs p sid quorum outs).map (fun o => o.partyId), sid⟩, ?_, rfl, ?_⟩
      · unfold finalize
        rw [if_neg hnlt, if_neg hngood]
      · intro o ho hbad hmem
        obtain ⟨o2, ho2, hpid⟩ := List.mem_map.mp hmem
        have ho2sup : o2 ∈ suppliedOutputs p sid quorum outs :=
          List.mem_of_mem_filter ho2
        have hnd := dedupByParty_ids_nodup p (outs.filter
          (fun o3 => decide (o3.partyId ∈ quorum) && (o3.sessionId == sid)))
        have ho2o : o2 = o :=
          nodup_ids_inj _ hnd o2 o ho2sup ho hpid
        have hgoodpred := (List.mem_filter.mp ho2).2
        rw [ho2o] at hgoodpred
        exact hbad (of_decide_eq_true hgoodpred)
    · intro hglt
      unfold finalize
      rw [if_neg hnlt, if_pos hglt]

/-- A concrete in-bound round-2 output over `bigQParams`. -/
def goodShare : Round2Output bigQParams :=
  { partyId := 0, sessionId := 5, zShare := fun _ _ => 1, timestamp := 0 }

/-- A concrete out-of-bound round-2 output over `bigQParams` (coefficient 3
exceeds the bound `2 ^ (xi + nu) = 2`). -/
def badShare : Round2Output bigQParams :=
  { partyId := 1, sessionId := 5, zShare := fun _ _ => 3, timestamp := 0 }

/-- Witness for C6: with threshold 1, an empty supply fails with
`insufficientShares`; a single out-of-bound share fails with `signingFailed`;
and one good plus one out-of-bound share succeed with the out-of-bound party
excluded from the signers. -/
theorem finalize_error_handling_witness :
    (finalize bigQParams 1 (fun _ _ _ => 0) (fun _ _ => 0) (fun _ => 1) 5 [0, 1]
        (fun _ _ => 0) [] = .error .insufficientShares)
    ∧ (finalize bigQParams 1 (fun _ _ _ => 0) (fun _ _ => 0) (fun _ => 1) 5 [0, 1]
        (fun _ _ => 0) [badShare] = .error .signingFailed)
    ∧ ∃ sig, finalize bigQParams 1 (fun _ _ _ => 0) (fun _ _ => 0) (fun _ => 1) 5
        [0, 1] (fun _ _ => 0) [goodShare, badShare] = .ok sig
        ∧ sig.signers = [0] := by
  refine ⟨?_, ?_, ?_⟩
  · exact (finalize_error_handling bigQParams 1 (fun _ _ _ => 0) (fun _ _ => 0)
      (fun _ => 1) 5 [0, 1] (fun _ _ => 0) []).1 (by decide)
  · exact ((finalize_error_handling bigQParams 1 (fun _ _ _ => 0) (fun _ _ => 0)
      (fun _ => 1) 5 [0, 1] (fun _ _ => 0) [badShare]).2 (by decide)).2 (by decide)
  · obtain ⟨sig, hok, hsig, _⟩ :=
      ((finalize_error_handling bigQParams 1 (fun _ _ _ => 0) (fun _ _ => 0)
        (fun _ => 1) 5 [0, 1] (fun _ _ => 0) [goodShare, badShare]).2
        (by decide)).1 (by decide)
    refine ⟨sig, hok, ?_⟩
    rw [hsig]
    decide

theorem rand_find_filtered_none {p : RingtailParams}
    (l : List (Nat × PolyVec p p.n)) (sid : Nat) :
    (l.filter (fun e2 => e2.1 != sid)).find? (fun e2 => e2.1 == sid) = none := by
  rw [List.find?_eq_none]
  intro x hx
  have hpred := (List.mem_filter.mp hx).2
  rw [bne_iff_ne] at hpred
  simp only [beq_iff_eq]
  exact hpred

/-- C7: the round engine's `signRound2` takes the derived challenge as input;
invoked without one it fails with `challengeNotReady`; given the challenge
and the stored round-1 randomness of the session it returns `z_i` computed
from exactly the secret key share, the challenge and that randomness; and a
second invocation for the same session fails with `randomnessReuse` because
the round-1 randomness is single-use. -/
theorem signRound2_requirements (p : RingtailParams) (st : PartyState p)
    (sid ts : Nat) :
    (partySignRound2 p st sid none ts = .error .challengeNotReady)
    ∧ (∀ (c : Rq p) (e : Nat × PolyVec p p.n),
        st.rand.find? (fun e2 => e2.1 == sid) = some e →
        ∃ st2, partySignRound2 p st sid (some c) ts
            = .ok (⟨st.partyId, sid, honestZ p st.secret.share c e.2, ts⟩, st2)
          ∧ ∀ (c2 : Rq p) (ts2 : Nat),
              partySignRound2 p st2 sid (some c2) ts2
                = .error .randomnessReuse) := by
  constructor
  · rfl
  · intro c e hfind
    refine ⟨⟨st.partyId, st.secret, st.rand.filter (fun e2 => e2.1 != sid),
      sid :: st.usedSessions⟩, ?_, ?_⟩
    · unfold partySignRound2
      rw [hfind]
    · intro c2 ts2
      simp only [partySignRound2]
      rw [rand_find_filtered_none]

/-- A concrete party state holding round-1 randomness for session 5. -/
def tinyPartyState : PartyState tinyParams :=
  { partyId := 0, secret := ⟨fun _ _ => 1⟩,
    rand := [(5, fun _ _ => 0)], usedSessions := [] }

/-- Witness for C7 on a concrete party state: missing challenge fails with
`challengeNotReady`; with the challenge the returned share is the honest
`z_i`; and the immediate second invocation for session 5 fails with
`randomnessReuse`. -/
theorem signRound2_requirements_witness :
    (partySignRound2 tinyParams tinyPartyState 5 none 0 = .error .challengeNotReady)
    ∧ ∃ st2, partySignRound2 tinyParams tinyPartyState 5 (some (fun _ => 1)) 0
        = .ok (⟨tinyPartyState.partyId, 5,
            honestZ tinyParams tinyPartyState.secret.share (fun _ => 1)
              ((5, fun _ _ => 0) : Nat × PolyVec tinyParams tinyParams.n).2, 0⟩, st2)
      ∧ partySignRound2 tinyParams st2 5 (some (fun _ => 1)) 1
          = .error .randomnessReuse := by
  have h := signRound2_requirements tinyParams tinyPartyState 5 0
  obtain ⟨st2, hok, hre⟩ := h.2 (fun _ => 1)
    ((5, fun _ _ => 0) : Nat × PolyVec tinyParams tinyParams.n) rfl
  exact ⟨h.1, st2, hok, hre (fun _ => 1) 1⟩

/-- Modelled from the spec: key shares are consistent with the public key
when the public matrix applied to their sum yields it. -/
def consistentShares (p : RingtailParams) (A : PolyMat p p.m p.n)
    (b : PolyVec p p.m) (shares : List (PolyVec p p.n)) : Prop :=
  matVec p A (vecSum p shares) = b

/-- Modelled from the spec: the honest round-1 commitment of randomness `y`
over the public matrix, rounded by `xi`. -/
def honestCommit (p : RingtailParams) (A : PolyMat p p.m p.n)
    (y : PolyVec p p.n) : Commitment p :=
  commitOf p (roundVec p p.xi (matVec p A y))

/-- Modelled from the spec: the round-1 outputs of honest quorum members. -/
def honestRound1Outs (p : RingtailParams) (A : PolyMat p p.m p.n)
    (ids : List Nat) (y : Nat → PolyVec p p.n) (sid : Nat) :
    List (Round1Output p) :=
  ids.map (fun i => ⟨i, sid, honestCommit p A (y i), [], 0⟩)

/-- The committed aggregate of a list of round-1 outputs: the sum of the
first columns of the sorted commitments (what the session records at the
round-1 quorum transition). -/
def commitAggregate (p : RingtailParams) (outs : List (Round1Output p)) :
    PolyVec p p.m :=
  vecSum p ((sortedCommitments p outs).map (firstCol p))

/-- Modelled from the spec: the round-2 outputs of honest quorum members on
challenge `c`. -/
def honestRound2Outs (p : RingtailParams) (ids : List Nat)
    (sec y : Nat → PolyVec p p.n) (c : Rq p) (sid : Nat) :
    List (Round2Output p) :=
  ids.map (fun i => ⟨i, sid, honestZ p (sec i) c (y i), 0⟩)

theorem honestRound2Outs_map_pid (p : RingtailParams) (ids : List Nat)
    (sec y : Nat → PolyVec p p.n) (c : Rq p) (sid : Nat) :
    (honestRound2Outs p ids sec y c sid).map (fun o => o.partyId) = ids := by
  unfold honestRound2Outs
  rw [List.map_map]
  exact List.map_id ids

theorem honestRound2Outs_supplied (p : RingtailParams) (ids : List Nat)
    (sec y : Nat → PolyVec p p.n) (c : Rq p) (sid : Nat) (hnd : ids.Nodup) :
    suppliedOutputs p sid ids (honestRound2Outs p ids sec y c sid)
      = honestRound2Outs p ids sec y c sid := by
  unfold suppliedOutputs
  have h1 : (honestRound2Outs p ids sec y c sid).filter
      (fun o => decide (o.partyId ∈ ids) && (o.sessionId == sid))
      = honestRound2Outs p ids sec y c sid := by
    apply List.filter_eq_self.mpr
    intro o ho
    unfold honestRound2Outs at ho
    obtain ⟨i, hi, rfl⟩ := List.mem_map.mp ho
    simp [hi]
  rw [h1]
  apply dedupByParty_eq_self
  rw [honestRound2Outs_map_pid]
  exact hnd

theorem honestRound2Outs_good (p : RingtailParams) (ids : List Nat)
    (sec y : Nat → PolyVec p p.n) (c : Rq p) (sid : Nat)
    (hq : 0 < p.q) (hb : p.q ≤ shareBound p) :
    (honestRound2Outs p ids sec y c sid).filter (fun o => zInBoundB p o.zShare)
      = honestRound2Outs p ids sec y c sid := by
  apply List.filter_eq_self.mpr
  intro o _
  unfold zInBoundB
  exact decide_eq_true (zInBound_of_q_le p hq hb o.zShare)

/-- C2: completeness.  For any message, any quorum of at least `t` distinct
parties holding key shares consistent with the public key, and the matching
public matrix: finalizing the honestly generated round-2 outputs (computed on
the challenge the session derived from the honest round-1 commitments) yields
a signature that `verify` accepts, signed by exactly the quorum. -/
theorem honest_finalize_verifies (p : RingtailParams) (t : Nat)
    (A : PolyMat p p.m p.n) (b : PolyVec p p.m) (msg : List Nat) (sid : Nat)
    (ids : List Nat) (sec y : Nat → PolyVec p p.n) (c : Rq p) (S : PolyVec p p.m)
    (hq : 1 < p.q) (hk : p.kappa ≤ p.phi) (hb : p.q ≤ shareBound p)
    (ht : t ≤ ids.length) (hnd : ids.Nodup)
    (_hconsist : consistentShares p A b (ids.map sec))
    (hc : c = deriveChallenge p msg sid
      (sortedCommitments p (honestRound1Outs p A ids y sid)))
    (hS : S = commitAggregate p (honestRound1Outs p A ids y sid)) :
    ∃ sig,
      finalize p t A b c sid ids S (honestRound2Outs p ids sec y c sid) = .ok sig
      ∧ verify p msg sig b A = true
      ∧ sig.signers = ids := by
  have hq0 : 0 < p.q := by omega
  have hsup := honestRound2Outs_supplied p ids sec y c sid hnd
  have hgoodf := honestRound2Outs_good p ids sec y c sid hq0 hb
  have hgood : goodOutputs p sid ids (honestRound2Outs p ids sec y c sid)
      = honestRound2Outs p ids sec y c sid := by
    unfold goodOutputs
    rw [hsup, hgoodf]
  have hlen : (honestRound2Outs p ids sec y c sid).length = ids.length := by
    unfold honestRound2Outs
    exact List.length_map ids _
  have hnlt : ¬ (suppliedOutputs p sid ids
      (honestRound2Outs p ids sec y c sid)).length < t := by
    rw [hsup, hlen]
    omega
  have hngood : ¬ (goodOutputs p sid ids
      (honestRound2Outs p ids sec y c sid)).length < t := by
    rw [hgood, hlen]
    omega
  refine ⟨⟨c,
    vecSum p ((goodOutputs p sid ids (honestRound2Outs p ids sec y c sid)).map
      (fun o => o.zShare)),
    vecSub p S (commitRecovery p A b c
      (vecSum p ((goodOutputs p sid ids (honestRound2Outs p ids sec y c sid)).map
        (fun o => o.zShare)))),
    (goodOutputs p sid ids (honestRound2Outs p ids sec y c sid)).map
      (fun o => o.partyId), sid⟩, ?_, ?_, ?_⟩
  · unfold finalize
    rw [if_neg hnlt, if_neg hngood]
  · have h1 : weight p c = p.kappa := by
      rw [hc]
      exact weight_expandChallenge p _ hq hk
    have h2 : zInBound p (vecSum p
        ((goodOutputs p sid ids (honestRound2Outs p ids sec y c sid)).map
          (fun o => o.zShare))) :=
      zInBound_of_q_le p hq0 hb _
    have h3 : deriveChallengeAgg p msg sid
        (vecAdd p (commitRecovery p A b c
          (vecSum p ((goodOutputs p sid ids (honestRound2Outs p ids sec y c sid)).map
            (fun o => o.zShare))))
          (vecSub p S (commitRecovery p A b c
            (vecSum p ((goodOutputs p sid ids (honestRound2Outs p ids sec y c sid)).map
              (fun o => o.zShare)))))) = c := by
      rw [vecAdd_vecSub_cancel, hS, hc]
      rfl
    unfold verify
    rw [Bool.and_eq_true, Bool.and_eq_true]
    exact ⟨⟨decide_eq_true h1, decide_eq_true h2⟩, decide_eq_true h3⟩
  · rw [hgood]
    exact honestRound2Outs_map_pid p ids sec y c sid

/-- Witness for C2 on concrete tiny parameters: one party with share `1`,
randomness `0`, public matrix of ones and the matching public key; the
finalized signature verifies and is signed by party 0. -/
theorem honest_finalize_verifies_witness :
    ∃ sig,
      finalize tinyParams 1 (fun _ _ _ => 1) (fun _ _ => 1)
          (deriveChallenge tinyParams [7] 5
            (sortedCommitments tinyParams
              (honestRound1Outs tinyParams (fun _ _ _ => 1) [0] (fun _ _ _ => 0) 5)))
          5 [0]
          (commitAggregate tinyParams
            (honestRound1Outs tinyParams (fun _ _ _ => 1) [0] (fun _ _ _ => 0) 5))
          (honestRound2Outs tinyParams [0] (fun _ _ _ => 1) (fun _ _ _ => 0)
            (deriveChallenge tinyParams [7] 5
              (sortedCommitments tinyParams
                (honestRound1Outs tinyParams (fun _ _ _ => 1) [0] (fun _ _ _ => 0) 5)))
            5)
        = .ok sig
      ∧ verify tinyParams [7] sig (fun _ _ => 1) (fun _ _ _ => 1) = true
      ∧ sig.signers = [0] :=
  honest_finalize_verifies tinyParams 1 (fun _ _ _ => 1) (fun _ _ => 1) [7] 5 [0]
    (fun _ _ _ => 1) (fun _ _ _ => 0) _ _
    (by decide) (by decide) (by decide) (by decide) (by decide)
    (by unfold consistentShares; decide) rfl rfl

end ZapRingtail
